import Mathlib

/-!
# Verification of the tinyshell-ng command interpreter

A shallow embedding of the core of the `tinyshell-ng` repository
(`src/tinysh.c`, `src/tinysh_menu.c`, with the configuration fixed by
`src/project-conf.h`: `BUFFER_SIZE = 256`, `HISTORY_DEPTH = 4` in the build,
`MAX_ARGS = 8`, `PARTIAL_MATCH = 1`, `ECHO_INPUT = 1`, `AUTOCOMPLATION = 1`,
`AUTHENTICATION_ENABLED = 1`, `MENU_MAX_DEPTH = 5`, `MENU_MAX_ITEMS = 10`,
`MENU_DISPLAY_ITEMS = 10`, `MAX_CMD_SUBMENUS = 30`).

C strings are modelled as `List Char` holding the characters before the NUL
terminator, except where the code manipulates raw fixed-size character arrays
(the line-editor buffers), which are modelled as `List Char` of fixed length
`BUFFER_SIZE + 1` containing explicit NUL characters.  Machine integers are
modelled as `Nat` with explicit bounds where overflow matters (`unsigned long`
on the 64-bit build is `Nat` saturated against `ULONG_MAX = 2^64 - 1`).
-/

/-- Configuration constant `BUFFER_SIZE` from `project-conf.h`. -/
def BUFFER_SIZE : Nat := 256

/-- Configuration constant `MAX_ARGS` from `project-conf.h`. -/
def MAX_ARGS : Nat := 8

/-- The NUL character, used explicitly in the buffer models. -/
def NUL : Char := Char.ofNat 0

/-! ## Tokenizer (`tinysh_tokenize`, src/tinysh.c lines 951-976)

The C function walks the string, skipping runs of the delimiter, recording a
pointer to each maximal delimiter-free run (up to `max_arg` of them) and
NUL-terminating each recorded run in place.  The vector entries after the call
are exactly the recorded runs, so the model returns the list of runs. -/

/-- Model of the body of `tinysh_tokenize`'s `while (*str && argc < max_arg)`
loop.  `argc` is the number of tokens recorded so far.  Returns the list of
tokens recorded by the remaining iterations. -/
def tokenizeLoop (tok : Char) (maxArg : Nat) : Nat → List Char → List (List Char)
  | _, [] => []
  | argc, c :: rest =>
    if argc < maxArg then
      -- skip over leading delimiters
      if c = tok then tokenizeLoop tok maxArg argc rest
      else
        -- record the token and scan to its end
        (c :: rest.takeWhile (fun d => d ≠ tok)) ::
          tokenizeLoop tok maxArg (argc + 1) (rest.dropWhile (fun d => d ≠ tok)).tail
    else []
  termination_by argc s => s.length
  decreasing_by
    all_goals simp_wf
    all_goals
      try
        (have h := (List.dropWhile_sublist (l := rest)
            (fun d => !decide (d = tok))).length_le
         have h2 := List.length_tail (rest.dropWhile (fun d => !decide (d = tok))))
    all_goals omega

/-- Model of `tinysh_tokenize` (src/tinysh.c).  A `none` string or an absent
output vector (`vecPresent = false`) models the C call with a null pointer;
the function then records no tokens.  Returns the recorded token list (the C
function returns its length as `argc` and stores the tokens in the vector). -/
def tinysh_tokenize (str : Option (List Char)) (tok : Char)
    (vecPresent : Bool) (maxArg : Nat) : List (List Char) :=
  match str, vecPresent with
  | none, _ => []
  | _, false => []
  | some s, true => tokenizeLoop tok maxArg 0 s

/-- Specification-level definition, following the spec's words: the maximal
delimiter-free substrings of the input, in their original order. -/
def tokenRuns (tok : Char) : List Char → List (List Char)
  | [] => []
  | c :: rest =>
    if c = tok then tokenRuns tok rest
    else (c :: rest.takeWhile (fun d => d ≠ tok)) ::
      tokenRuns tok (rest.dropWhile (fun d => d ≠ tok)).tail
  termination_by s => s.length
  decreasing_by
    all_goals simp_wf
    all_goals
      try
        (have h := (List.dropWhile_sublist (l := rest)
            (fun d => !decide (d = tok))).length_le
         have h2 := List.length_tail (rest.dropWhile (fun d => !decide (d = tok))))
    all_goals omega

/-- The loop with `k` tokens already recorded produces the first
`maxArg - k` maximal runs. -/
theorem tokenizeLoop_eq_runs (tok : Char) (maxArg : Nat) :
    ∀ (n : Nat) (s : List Char), s.length ≤ n → ∀ (k : Nat),
      tokenizeLoop tok maxArg k s = (tokenRuns tok s).take (maxArg - k) := by
  intro n
  induction n with
  | zero =>
    intro s hs k
    have : s = [] := List.eq_nil_of_length_eq_zero (Nat.le_zero.mp hs)
    subst this
    simp [tokenizeLoop, tokenRuns]
  | succ n ih =>
    intro s hs k
    match s with
    | [] => simp [tokenizeLoop, tokenRuns]
    | c :: rest =>
      have hrest : rest.length ≤ n := by
        simp only [List.length_cons] at hs; omega
      by_cases hc : c = tok
      · rw [tokenizeLoop, tokenRuns, if_pos hc, if_pos hc]
        by_cases hk : k < maxArg
        · rw [if_pos hk]
          exact ih rest hrest k
        · rw [if_neg hk]
          have h0 : maxArg - k = 0 := by omega
          simp [h0]
      · rw [tokenizeLoop, tokenRuns, if_neg hc, if_neg hc]
        by_cases hk : k < maxArg
        · rw [if_pos hk]
          have htail : (rest.dropWhile (fun d => decide (d ≠ tok))).tail.length ≤ n := by
            have h1 := (List.dropWhile_sublist (l := rest)
              (fun d => decide (d ≠ tok))).length_le
            have h2 := List.length_tail (rest.dropWhile (fun d => decide (d ≠ tok)))
            omega
          have hmk : maxArg - k = (maxArg - (k + 1)) + 1 := by omega
          rw [hmk, List.take_succ_cons,
            ih (rest.dropWhile (fun d => decide (d ≠ tok))).tail htail (k + 1)]
        · rw [if_neg hk]
          have h0 : maxArg - k = 0 := by omega
          simp [h0]

/-- Every maximal run is nonempty. -/
theorem tokenRuns_nonempty (tok : Char) :
    ∀ (n : Nat) (s : List Char), s.length ≤ n →
      (tokenRuns tok s).all (fun t => !t.isEmpty) = true := by
  intro n
  induction n with
  | zero =>
    intro s hs
    have : s = [] := List.eq_nil_of_length_eq_zero (Nat.le_zero.mp hs)
    subst this
    simp [tokenRuns]
  | succ n ih =>
    intro s hs
    match s with
    | [] => simp [tokenRuns]
    | c :: rest =>
      have hrest : rest.length ≤ n := by
        simp only [List.length_cons] at hs; omega
      by_cases hc : c = tok
      · rw [tokenRuns, if_pos hc]
        exact ih rest hrest
      · rw [tokenRuns, if_neg hc]
        have htail : (rest.dropWhile (fun d => decide (d ≠ tok))).tail.length ≤ n := by
          have h1 := (List.dropWhile_sublist (l := rest)
            (fun d => decide (d ≠ tok))).length_le
          have h2 := List.length_tail (rest.dropWhile (fun d => decide (d ≠ tok)))
          omega
        simp only [List.all_cons, Bool.and_eq_true]
        exact ⟨by simp, ih _ htail⟩

/-- C7: `tinysh_tokenize` returns exactly the maximal delimiter-free substrings
of the input, in their original order, capped at `max_arg`; no returned token
is empty; a null string or null output vector yields 0 tokens; in particular
tokenizing `"one two three"` on space gives the three tokens
`"one"`, `"two"`, `"three"` and `"  a b"` gives `"a"`, `"b"`. -/
theorem tokenize_exact_runs :
    (∀ (s : List Char) (tok : Char) (maxArg : Nat),
        tinysh_tokenize (some s) tok true maxArg = (tokenRuns tok s).take maxArg) ∧
    (∀ (s : List Char) (tok : Char) (maxArg : Nat),
        (tinysh_tokenize (some s) tok true maxArg).all (fun t => !t.isEmpty) = true) ∧
    (∀ (tok : Char) (maxArg : Nat) (v : Bool),
        tinysh_tokenize none tok v maxArg = []) ∧
    (∀ (s : Option (List Char)) (tok : Char) (maxArg : Nat),
        tinysh_tokenize s tok false maxArg = []) ∧
    tinysh_tokenize (some "one two three".toList) ' ' true (MAX_ARGS - 1) =
      ["one".toList, "two".toList, "three".toList] ∧
    tinysh_tokenize (some "  a b".toList) ' ' true (MAX_ARGS - 1) =
      ["a".toList, "b".toList] := by
  have hmain : ∀ (s : List Char) (tok : Char) (maxArg : Nat),
      tinysh_tokenize (some s) tok true maxArg = (tokenRuns tok s).take maxArg := by
    intro s tok maxArg
    have h0 : tinysh_tokenize (some s) tok true maxArg = tokenizeLoop tok maxArg 0 s := rfl
    rw [h0, tokenizeLoop_eq_runs tok maxArg s.length s le_rfl 0, Nat.sub_zero]
  refine ⟨hmain, ?_, ?_, ?_, ?_, ?_⟩
  · intro s tok maxArg
    rw [hmain]
    have hall := tokenRuns_nonempty tok s.length s le_rfl
    have hsub : (tokenRuns tok s).take maxArg ⊆ tokenRuns tok s :=
      List.take_subset _ _
    rw [List.all_eq_true] at hall ⊢
    intro t ht
    exact hall t (hsub ht)
  · intro tok maxArg v; cases v <;> rfl
  · intro s tok maxArg; cases s <;> rfl
  · rw [hmain]; simp [tokenRuns, MAX_ARGS]
  · rw [hmain]; simp [tokenRuns, MAX_ARGS]

/-! ## Command registration (`tinysh_add_command`, src/tinysh.c lines 746-781)

Descriptors are identified by `Nat` ids (modelling pointer identity); a
sibling chain is the list of ids reached through the `next` links. -/

/-- Model of the sibling-chain walk in `tinysh_add_command`:
`while (cm->next) { if (cm == cmd) return; cm = cm->next; }
if (cm == cmd) return; cm->next = cmd;` — plus the empty-chain branches
(`parent->child = cmd` resp. `root_cmd = cmd`). -/
def addChain : List Nat → Nat → List Nat
  | [], c => [c]
  | [x], c => if x = c then [x] else [x, c]
  | x :: y :: t, c => if x = c then x :: y :: t else x :: addChain (y :: t) c

/-- The registry: the root sibling chain plus each parent's child chain. -/
structure Registry where
  rootChain : List Nat
  childChain : Nat → List Nat

/-- Model of `tinysh_add_command` (src/tinysh.c): dispatches on
`cmd->parent` and updates the corresponding sibling chain. -/
def tinysh_add_command (reg : Registry) (parent : Option Nat) (cmd : Nat) :
    Registry :=
  match parent with
  | some p =>
    { reg with childChain :=
        fun q => if q = p then addChain (reg.childChain p) cmd else reg.childChain q }
  | none => { reg with rootChain := addChain reg.rootChain cmd }

/-- The chain walk appends at the end, or is a no-op on an already-present id. -/
theorem addChain_eq (l : List Nat) (c : Nat) :
    addChain l c = if c ∈ l then l else l ++ [c] := by
  induction l with
  | nil => simp [addChain]
  | cons x t ih =>
    match t with
    | [] =>
      by_cases hx : x = c
      · simp [addChain, hx]
      · have hne : c ≠ x := fun h => hx h.symm
        simp [addChain, hx, hne]
    | y :: t2 =>
      by_cases hx : x = c
      · simp [addChain, hx]
      · have hne : c ≠ x := fun h => hx h.symm
        rw [addChain, if_neg hx, ih]
        by_cases hc : c ∈ y :: t2
        · simp [hc, hne]
        · simp [hc, hne]

/-- C8: registration appends the descriptor at the end of its parent's child
chain (or the root chain when it has no parent), preserving order, is a silent
no-op when the descriptor is already present in that chain (identity
equality), and leaves every other chain untouched. -/
theorem add_command_append_or_noop :
    (∀ (reg : Registry) (p cmd : Nat),
        (∀ q, (tinysh_add_command reg (some p) cmd).childChain q =
          if q = p then
            (if cmd ∈ reg.childChain p then reg.childChain p
             else reg.childChain p ++ [cmd])
          else reg.childChain q) ∧
        (tinysh_add_command reg (some p) cmd).rootChain = reg.rootChain) ∧
    (∀ (reg : Registry) (cmd : Nat),
        (tinysh_add_command reg none cmd).rootChain =
          (if cmd ∈ reg.rootChain then reg.rootChain
           else reg.rootChain ++ [cmd]) ∧
        (tinysh_add_command reg none cmd).childChain = reg.childChain) := by
  constructor
  · intro reg p cmd
    constructor
    · intro q
      by_cases hq : q = p
      · simp [tinysh_add_command, hq, addChain_eq]
      · simp [tinysh_add_command, hq]
    · rfl
  · intro reg cmd
    exact ⟨addChain_eq _ _, rfl⟩

/-! ## Numeric parsing (`tinysh_atoxi`, src/tinysh.c lines 806-847) -/

/-- `ULONG_MAX` on the 64-bit desktop build the Makefile targets. -/
def ULONG_MAX : Nat := 2 ^ 64 - 1

/-- The digit-decoding chain in `tinysh_atoxi`'s loop body:
decimal digits always, letter digits only in hexadecimal mode. -/
def digitLookup (ishex : Bool) (c : Char) : Option Nat :=
  if '0' ≤ c ∧ c ≤ '9' then some (c.toNat - '0'.toNat)
  else if ishex ∧ 'a' ≤ c ∧ c ≤ 'f' then some (c.toNat + 10 - 'a'.toNat)
  else if ishex ∧ 'A' ≤ c ∧ c ≤ 'F' then some (c.toNat + 10 - 'A'.toNat)
  else none

/-- Model of `tinysh_atoxi`'s `while (*s)` loop.  Note the loop multiplies
the accumulator by the base (after a saturation pre-check) before it decodes
and validates the current character; an invalid character breaks out of the
loop only after that multiplication. -/
def atoxiLoop (ishex : Bool) : Nat → List Char → Nat
  | res, [] => res
  | res, c :: t =>
    let base := if ishex then 16 else 10
    if res > ULONG_MAX / base then ULONG_MAX
    else
      let r2 := res * base
      match digitLookup ishex c with
      | none => r2
      | some d => if ULONG_MAX - r2 < d then ULONG_MAX else atoxiLoop ishex (r2 + d) t

/-- Model of `tinysh_atoxi` (src/tinysh.c): empty string yields 0; a `"0x"`
prefix selects hexadecimal; otherwise decimal. -/
def tinysh_atoxi (s : List Char) : Nat :=
  match s with
  | [] => 0
  | c1 :: rest =>
    if c1 = '0' ∧ rest.headD NUL = 'x' then atoxiLoop true 0 rest.tail
    else atoxiLoop false 0 (c1 :: rest)

/-- Specification-level parse, following the claim's words: accumulate valid
digits of the active base and stop at the first invalid character, with no
bound on the value. -/
def digitsValue (ishex : Bool) : Nat → List Char → Nat
  | acc, [] => acc
  | acc, c :: t =>
    match digitLookup ishex c with
    | some d => digitsValue ishex (acc * (if ishex then 16 else 10) + d) t
    | none => acc

/-- The unbounded parse value never decreases below its accumulator. -/
theorem digitsValue_ge (ishex : Bool) :
    ∀ (t : List Char) (acc : Nat), acc ≤ digitsValue ishex acc t := by
  intro t
  induction t with
  | nil => intro acc; simp [digitsValue]
  | cons c t2 ih =>
    intro acc
    rw [digitsValue]
    match digitLookup ishex c with
    | none => exact le_rfl
    | some d =>
      have hbase : 1 ≤ (if ishex then 16 else 10 : Nat) := by
        by_cases h : ishex <;> simp [h]
      calc acc ≤ acc * (if ishex then 16 else 10) :=
            Nat.le_mul_of_pos_right acc hbase
        _ ≤ acc * (if ishex then 16 else 10) + d := Nat.le_add_right _ _
        _ ≤ digitsValue ishex (acc * (if ishex then 16 else 10) + d) t2 := ih _

/-- The loop never exceeds `ULONG_MAX`. -/
theorem atoxiLoop_le (ishex : Bool) :
    ∀ (s : List Char) (res : Nat), res ≤ ULONG_MAX →
      atoxiLoop ishex res s ≤ ULONG_MAX := by
  intro s
  induction s with
  | nil => intro res h; exact h
  | cons c t ih =>
    intro res h
    rw [atoxiLoop]
    simp only
    set base : Nat := if ishex then 16 else 10 with hbase
    have hbpos : 0 < base := by by_cases hh : ishex <;> simp [hbase, hh]
    by_cases hdiv : res > ULONG_MAX / base
    · rw [if_pos hdiv]
    · rw [if_neg hdiv]
      have hr2 : res * base ≤ ULONG_MAX :=
        (Nat.le_div_iff_mul_le hbpos).mp (Nat.le_of_not_lt hdiv)
      cases hdl : digitLookup ishex c with
      | none => simp only [hdl]; exact hr2
      | some d =>
        simp only [hdl]
        by_cases hov : ULONG_MAX - res * base < d
        · rw [if_pos hov]
        · rw [if_neg hov]
          exact ih _ (by omega)

/-- On all-valid-digit input the loop computes exactly the saturated value. -/
theorem atoxiLoop_all_valid (ishex : Bool) :
    ∀ (s : List Char), s.all (fun c => (digitLookup ishex c).isSome) = true →
      ∀ (res : Nat), res ≤ ULONG_MAX →
        atoxiLoop ishex res s = min (digitsValue ishex res s) ULONG_MAX := by
  intro s
  induction s with
  | nil =>
    intro _ res h
    rw [atoxiLoop, digitsValue]
    exact (Nat.min_eq_left h).symm
  | cons c t ih =>
    intro hall res h
    simp only [List.all_cons, Bool.and_eq_true] at hall
    obtain ⟨hc, ht⟩ := hall
    rw [atoxiLoop, digitsValue]
    simp only
    set base : Nat := if ishex then 16 else 10 with hbase
    have hbpos : 0 < base := by by_cases hh : ishex <;> simp [hbase, hh]
    cases hd : digitLookup ishex c with
    | none => rw [hd] at hc; simp at hc
    | some d =>
      simp only [hd]
      by_cases hdiv : res > ULONG_MAX / base
      · rw [if_pos hdiv]
        have h1 : ULONG_MAX < res * base := (Nat.div_lt_iff_lt_mul hbpos).mp hdiv
        have h2 : res * base + d ≤ digitsValue ishex (res * base + d) t :=
          digitsValue_ge ishex t _
        have h3 : ULONG_MAX < digitsValue ishex (res * base + d) t := by omega
        omega
      · rw [if_neg hdiv]
        have hr2 : res * base ≤ ULONG_MAX :=
          (Nat.le_div_iff_mul_le hbpos).mp (Nat.le_of_not_lt hdiv)
        by_cases hov : ULONG_MAX - res * base < d
        · rw [if_pos hov]
          have h2 : res * base + d ≤ digitsValue ishex (res * base + d) t :=
            digitsValue_ge ishex t _
          have h3 : ULONG_MAX < digitsValue ishex (res * base + d) t := by omega
          omega
        · rw [if_neg hov]
          exact ih ht _ (by omega)

/-- C10 (amended): `tinysh_atoxi` parses decimal, or hexadecimal after a
`"0x"` prefix; the result never exceeds (and never wraps past) `ULONG_MAX`;
on input consisting entirely of valid digits for the active base the result
is exactly the value saturated at `ULONG_MAX`; parsing stops at the first
invalid character, but only after the accumulator has already been multiplied
once more by the active base, and when the accumulator exceeds
`ULONG_MAX / base` with any character remaining the function returns
`ULONG_MAX` outright; `"0xZZ"` and the empty string still yield 0. -/
theorem atoxi_saturating_parse :
    (∀ (s : List Char), tinysh_atoxi s ≤ ULONG_MAX) ∧
    (∀ (rest : List Char),
        rest.all (fun c => (digitLookup true c).isSome) = true →
        tinysh_atoxi ('0' :: 'x' :: rest) = min (digitsValue true 0 rest) ULONG_MAX) ∧
    (∀ (s : List Char),
        s.all (fun c => (digitLookup false c).isSome) = true →
        tinysh_atoxi s = min (digitsValue false 0 s) ULONG_MAX) ∧
    (∀ (ishex : Bool) (res : Nat) (c : Char) (t : List Char),
        ¬ res > ULONG_MAX / (if ishex then 16 else 10) →
        digitLookup ishex c = none →
        atoxiLoop ishex res (c :: t) = res * (if ishex then 16 else 10)) ∧
    (∀ (ishex : Bool) (res : Nat) (c : Char) (t : List Char),
        res > ULONG_MAX / (if ishex then 16 else 10) →
        atoxiLoop ishex res (c :: t) = ULONG_MAX) ∧
    tinysh_atoxi "0xZZ".toList = 0 ∧
    tinysh_atoxi [] = 0 := by
  refine ⟨?_, ?_, ?_, ?_, ?_, ?_, ?_⟩
  · intro s
    match s with
    | [] => simp [tinysh_atoxi]
    | c1 :: rest =>
      rw [tinysh_atoxi]
      by_cases hpre : c1 = '0' ∧ rest.headD NUL = 'x'
      · rw [if_pos hpre]
        exact atoxiLoop_le true _ 0 (by simp [ULONG_MAX])
      · rw [if_neg hpre]
        exact atoxiLoop_le false _ 0 (by simp [ULONG_MAX])
  · intro rest hall
    have hpre : ('0' : Char) = '0' ∧ ('x' :: rest).headD NUL = 'x' := by simp
    rw [tinysh_atoxi, if_pos hpre]
    exact atoxiLoop_all_valid true rest hall 0 (by simp [ULONG_MAX])
  · intro s hall
    match s with
    | [] => simp [tinysh_atoxi, digitsValue]
    | c1 :: rest =>
      rw [tinysh_atoxi]
      by_cases hpre : c1 = '0' ∧ rest.headD NUL = 'x'
      · exfalso
        obtain ⟨h0, hx⟩ := hpre
        match rest with
        | [] => exact absurd hx (by decide)
        | c2 :: rest2 =>
          simp only [List.headD_cons] at hx
          subst hx
          simp only [List.all_cons, Bool.and_eq_true] at hall
          have := hall.2.1
          simp [digitLookup] at this
      · rw [if_neg hpre]
        exact atoxiLoop_all_valid false _ hall 0 (by simp [ULONG_MAX])
  · intro ishex res c t hdiv hdl
    rw [atoxiLoop]
    simp only
    rw [if_neg hdiv]
    simp only [hdl]
  · intro ishex res c t hdiv
    rw [atoxiLoop]
    simp only
    rw [if_pos hdiv]
  · simp [tinysh_atoxi, atoxiLoop, digitLookup, ULONG_MAX, NUL]
  · rfl

/-- C10 counterexample: on `"12x"` the code does not stop cleanly at the
invalid character `'x'` — the accumulator 12 is multiplied by the base once
more before the loop breaks, so the function returns 120, while the claim's
reading (stop at the first invalid digit) gives 12. -/
theorem atoxi_trailing_invalid_counterexample :
    tinysh_atoxi "12x".toList = 120 ∧
    digitsValue false 0 "12x".toList = 12 ∧
    (120 : Nat) ≠ 12 := by
  refine ⟨?_, ?_, by decide⟩
  · simp [tinysh_atoxi, atoxiLoop, digitLookup, ULONG_MAX, NUL]
  · simp [digitsValue, digitLookup]

/-- Witness for the amended C10 theorem at concrete inputs. -/
theorem atoxi_saturating_parse_witness :
    tinysh_atoxi ('0' :: 'x' :: "AB".toList) = min (digitsValue true 0 "AB".toList) ULONG_MAX ∧
    tinysh_atoxi "123".toList = min (digitsValue false 0 "123".toList) ULONG_MAX ∧
    atoxiLoop false 3 ['x'] = 30 ∧
    atoxiLoop true (2 ^ 61) ['7'] = ULONG_MAX :=
  ⟨atoxi_saturating_parse.2.1 "AB".toList (by decide),
   atoxi_saturating_parse.2.2.1 "123".toList (by decide),
   by
    have h := atoxi_saturating_parse.2.2.2.1 false 3 'x' [] (by decide) (by decide)
    simpa using h,
   by
    have h := atoxi_saturating_parse.2.2.2.2.1 true (2 ^ 61) '7' [] (by norm_num [ULONG_MAX])
    simpa using h⟩

/-! ## Matching engine (`strstart` and `parse_command`,
src/tinysh.c lines 189-267; `PARTIAL_MATCH = 1` in this build) -/

/-- Result of `strstart`: `FULLMATCH` / `PARTMATCH` / `UNMATCH`. -/
inductive StrRes where
  | fullmatch
  | partmatch
  | unmatch
  deriving DecidableEq, Repr

/-- Model of `strstart(s1, s2)` (src/tinysh.c): scan `s1` (a command name)
and `s2` (the input) in lock-step while characters are equal; when the scan
stops, a token terminator (space or end) in `s2` yields `FULLMATCH` if `s1`
is exhausted and `PARTMATCH` otherwise (partial-match policy enabled);
anything else is `UNMATCH`. -/
def strstart : List Char → List Char → StrRes
  | [], [] => .fullmatch
  | [], c2 :: _ => if c2 = ' ' then .fullmatch else .unmatch
  | _ :: _, [] => .partmatch
  | c1 :: t1, c2 :: t2 =>
    if c1 = c2 then strstart t1 t2
    else if c2 = ' ' then .partmatch else .unmatch

/-- A command descriptor as seen by the matching engine: an identity (the
pointer) and a name. -/
structure CmdN where
  id : Nat
  name : List Char
  deriving DecidableEq, Repr

/-- Result of `parse_command`: `NULLMATCH` (end of input, cursor written
back), `MATCH` (descriptor plus advanced cursor), `AMBIG` (the first partial
candidate is left in `*_cmd`), or `UNMATCH`. -/
inductive ParseRes where
  | nullmatch (rest : List Char)
  | matched (c : CmdN) (rest : List Char)
  | ambig (c : CmdN)
  | unmatch
  deriving DecidableEq, Repr

/-- Advance the input cursor past the matched token and any following
spaces (`while(*str && *str!=' ') str++; while(*str==' ') str++;`). -/
def advanceTok (s : List Char) : List Char :=
  (s.dropWhile (fun c => c ≠ ' ')).dropWhile (fun c => c = ' ')

/-- Model of the sibling scan in `parse_command`: `acc` is the
`matched_cmd` accumulator holding the first partial candidate seen so far.
A `FULLMATCH` returns immediately; a second `PARTMATCH` returns `AMBIG`
immediately; after the chain, a single partial candidate becomes a match. -/
def parse_scan : List CmdN → Option CmdN → List Char → ParseRes
  | [], none, _ => .unmatch
  | [], some m, s => .matched m (advanceTok s)
  | c :: rest, acc, s =>
    match strstart c.name s with
    | .fullmatch => .matched c (advanceTok s)
    | .partmatch =>
      match acc with
      | some m => .ambig m
      | none => parse_scan rest (some c) s
    | .unmatch => parse_scan rest acc s

/-- Model of `parse_command` (src/tinysh.c): skip leading blanks, return
`NULLMATCH` on end of input, otherwise scan the sibling chain. -/
def parse_command (cmds : List CmdN) (str : List Char) : ParseRes :=
  let s := str.dropWhile (fun c => c = ' ')
  if s = [] then .nullmatch s else parse_scan cmds none s

/-- Unfolding equation for `parse_scan` on a nonempty chain. -/
theorem parse_scan_cons (c : CmdN) (rest : List CmdN) (acc : Option CmdN)
    (s : List Char) :
    parse_scan (c :: rest) acc s =
      match strstart c.name s with
      | .fullmatch => .matched c (advanceTok s)
      | .partmatch =>
        match acc with
        | some m => .ambig m
        | none => parse_scan rest (some c) s
      | .unmatch => parse_scan rest acc s := rfl

/-- A full match is returned as soon as it is reached, provided fewer than
two partial candidates precede it in chain order. -/
theorem parse_scan_full (s : List Char) :
    ∀ (pre : List CmdN) (acc : Option CmdN) (c : CmdN) (post : List CmdN),
      strstart c.name s = .fullmatch →
      (∀ p ∈ pre, strstart p.name s ≠ .fullmatch) →
      pre.countP (fun p => strstart p.name s = .partmatch) +
        (if acc.isSome then 1 else 0) ≤ 1 →
      parse_scan (pre ++ c :: post) acc s = .matched c (advanceTok s) := by
  intro pre
  induction pre with
  | nil =>
    intro acc c post hfull _ _
    simp only [List.nil_append, parse_scan, hfull]
  | cons q pre2 ih =>
    intro acc c post hfull hpre hcount
    have hq : strstart q.name s ≠ .fullmatch := hpre q (List.mem_cons_self q pre2)
    rw [List.cons_append, parse_scan_cons]
    rw [List.countP_cons] at hcount
    cases hqs : strstart q.name s with
    | fullmatch => exact absurd hqs hq
    | partmatch =>
      simp only [hqs]
      simp only [hqs, decide_True, if_true] at hcount
      cases acc with
      | some m =>
        exfalso
        simp only [Option.isSome_some, if_true] at hcount
        omega
      | none =>
        simp only
        apply ih (some q) c post hfull
          (fun p hp => hpre p (List.mem_cons_of_mem q hp))
        simp only [Option.isSome_some, if_true]
        simp only [Option.isSome_none, if_false] at hcount
        omega
    | unmatch =>
      simp only [hqs]
      apply ih acc c post hfull (fun p hp => hpre p (List.mem_cons_of_mem q hp))
      simp only [hqs] at hcount
      norm_num at hcount
      omega

/-- Once a partial candidate `m` is held, any further partial candidate
before a full match makes the scan return `AMBIG m` immediately. -/
theorem parse_scan_second_partial (s : List Char) :
    ∀ (mid : List CmdN) (m p2 : CmdN) (post : List CmdN),
      (∀ q ∈ mid, strstart q.name s ≠ .fullmatch) →
      strstart p2.name s = .partmatch →
      parse_scan (mid ++ p2 :: post) (some m) s = .ambig m := by
  intro mid
  induction mid with
  | nil =>
    intro m p2 post _ hp2
    simp only [List.nil_append, parse_scan, hp2]
  | cons q mid2 ih =>
    intro m p2 post hmid hp2
    have hq : strstart q.name s ≠ .fullmatch := hmid q (List.mem_cons_self q mid2)
    rw [List.cons_append, parse_scan_cons]
    cases hqs : strstart q.name s with
    | fullmatch => exact absurd hqs hq
    | partmatch => simp only [hqs]
    | unmatch =>
      simp only [hqs]
      exact ih m p2 post (fun p hp => hmid p (List.mem_cons_of_mem q hp)) hp2

/-- A prefix of non-matching siblings is skipped without effect. -/
theorem parse_scan_skips_unmatched (s : List Char) :
    ∀ (pre : List CmdN) (rest : List CmdN) (acc : Option CmdN),
      (∀ q ∈ pre, strstart q.name s = .unmatch) →
      parse_scan (pre ++ rest) acc s = parse_scan rest acc s := by
  intro pre
  induction pre with
  | nil => intro rest acc _; rfl
  | cons q pre2 ih =>
    intro rest acc hpre
    rw [List.cons_append, parse_scan_cons, hpre q (List.mem_cons_self q pre2)]
    exact ih rest acc (fun p hp => hpre p (List.mem_cons_of_mem q hp))

/-- C1 (amended): in `parse_command`, a full match short-circuits and wins
provided at most one partial-match candidate precedes it in chain order;
but as soon as a second partial candidate is encountered before any full
match, `AMBIG` is returned immediately (with the first partial candidate) —
even when a later sibling would be a full match for the token. -/
theorem parse_command_full_match_order (cmds : List CmdN) (str s : List Char)
    (hskip : str.dropWhile (fun c => c = ' ') = s) (hs : s ≠ []) :
    (∀ (pre : List CmdN) (c : CmdN) (post : List CmdN),
        cmds = pre ++ c :: post →
        strstart c.name s = .fullmatch →
        (∀ p ∈ pre, strstart p.name s ≠ .fullmatch) →
        pre.countP (fun p => strstart p.name s = .partmatch) ≤ 1 →
        parse_command cmds str = .matched c (advanceTok s)) ∧
    (∀ (pre : List CmdN) (p1 : CmdN) (mid : List CmdN) (p2 : CmdN)
        (post : List CmdN),
        cmds = pre ++ p1 :: (mid ++ p2 :: post) →
        (∀ q ∈ pre, strstart q.name s = .unmatch) →
        strstart p1.name s = .partmatch →
        (∀ q ∈ mid, strstart q.name s ≠ .fullmatch) →
        strstart p2.name s = .partmatch →
        parse_command cmds str = .ambig p1) := by
  subst hskip
  constructor
  · intro pre c post hchain hfull hpre hcount
    subst hchain
    rw [parse_command]
    rw [if_neg hs]
    apply parse_scan_full _ pre none c post hfull hpre
    simpa using hcount
  · intro pre p1 mid p2 post hchain hpre hp1 hmid hp2
    subst hchain
    rw [parse_command]
    rw [if_neg hs]
    rw [parse_scan_skips_unmatched _ pre (p1 :: (mid ++ p2 :: post)) none hpre]
    rw [parse_scan_cons, hp1]
    exact parse_scan_second_partial _ mid p1 p2 post hmid hp2

/-- C1 counterexample: with siblings named `ab`, `ac`, `a` and input `a`,
the third sibling is a full match yet `parse_command` returns `AMBIG` with
the first partial candidate — the scan gives up at the second partial
candidate before ever reaching the full match. -/
theorem parse_full_match_loses_counterexample :
    strstart "a".toList "a".toList = .fullmatch ∧
    parse_command [⟨0, "ab".toList⟩, ⟨1, "ac".toList⟩, ⟨2, "a".toList⟩]
        "a".toList = .ambig ⟨0, "ab".toList⟩ ∧
    parse_command [⟨0, "ab".toList⟩, ⟨1, "ac".toList⟩, ⟨2, "a".toList⟩]
        "a".toList ≠ .matched ⟨2, "a".toList⟩ (advanceTok "a".toList) := by
  refine ⟨by decide, by decide, by decide⟩

/-- Witness for the amended C1 theorem: a full match preceded by a single
partial candidate wins; a second partial candidate first yields ambiguity. -/
theorem parse_command_full_match_order_witness :
    parse_command [⟨0, "ab".toList⟩, ⟨1, "a".toList⟩] "a".toList =
      .matched ⟨1, "a".toList⟩ (advanceTok "a".toList) ∧
    parse_command [⟨0, "ab".toList⟩, ⟨1, "ac".toList⟩, ⟨2, "a".toList⟩]
      "a".toList = .ambig ⟨0, "ab".toList⟩ :=
  ⟨(parse_command_full_match_order [⟨0, "ab".toList⟩, ⟨1, "a".toList⟩]
      "a".toList "a".toList (by decide) (by decide)).1
      [⟨0, "ab".toList⟩] ⟨1, "a".toList⟩ [] rfl (by decide) (by decide) (by decide),
   (parse_command_full_match_order
      [⟨0, "ab".toList⟩, ⟨1, "ac".toList⟩, ⟨2, "a".toList⟩]
      "a".toList "a".toList (by decide) (by decide)).2
      [] ⟨0, "ab".toList⟩ [] ⟨1, "ac".toList⟩ [⟨2, "a".toList⟩] rfl
      (by simp) (by decide) (by simp) (by decide)⟩

/-! ## Authorization overlay (src/tinysh.c lines 140-176 and 282-330, with
the admin-flag helpers from `tinysh.h`; `AUTHENTICATION_ENABLED = 1`). -/

/-- `TINYSH_AUTH_NONE` from `tinysh.h`. -/
def TINYSH_AUTH_NONE : Nat := 0

/-- `TINYSH_AUTH_ADMIN` from `tinysh.h`. -/
def TINYSH_AUTH_ADMIN : Nat := 1

/-- `TINYSH_CMD_ADMIN` from `tinysh.h`. -/
def TINYSH_CMD_ADMIN : Nat := 0x80

/-- `DEFAULT_ADMIN_PASSWORD` from `project-conf.h`. -/
def DEFAULT_ADMIN_PASSWORD : List Char := "embedded2024".toList

/-- A command descriptor as the dispatcher sees it: name, whether the
handler pointer is non-null, and the raw `uintptr_t` bit pattern of the
opaque argument (the admin flag lives in bit 31, per `TINYSH_ADMIN_CMD`). -/
structure CmdDesc where
  name : List Char
  hasFunction : Bool
  arg : Nat

/-- Model of `tinysh_is_admin_command` (tinysh.h):
`((uintptr_t)(cmd->arg) >> 24) & TINYSH_CMD_ADMIN`. -/
def tinysh_is_admin_command (cmd : CmdDesc) : Bool :=
  ((cmd.arg >>> 24) &&& TINYSH_CMD_ADMIN) ≠ 0

/-- Model of `tinysh_get_real_arg` (tinysh.h): `arg & 0xFFFFFF`. -/
def tinysh_get_real_arg (cmd : CmdDesc) : Nat :=
  cmd.arg &&& 0xFFFFFF

/-- Model of `tinysh_verify_password` (src/tinysh.c): exact string equality
against the compiled-in secret. -/
def tinysh_verify_password (password : List Char) : Bool :=
  password = DEFAULT_ADMIN_PASSWORD

/-- Observable outcome of one `exec_command` call. -/
structure ExecResult where
  printed : List String
  handlerCalled : Bool
  handlerArgv : List (List Char)
  handlerArg : Nat
  deriving Repr

/-- Model of `exec_command` (src/tinysh.c): refuse an admin-flagged command
while the privilege level is below Admin (printing a diagnostic and an
authentication hint, never reaching the handler); otherwise strip the admin
flag from the argument, build `argv` (the canonical name followed by the
space-separated words of the remaining input, capped at `MAX_ARGS`), and
invoke the handler if one is present. -/
def exec_command (authLevel : Nat) (cmd : CmdDesc) (str : List Char) :
    ExecResult :=
  if tinysh_is_admin_command cmd ∧ authLevel < TINYSH_AUTH_ADMIN then
    { printed := ["Error: Command requires admin privileges",
                  "Use \x27auth <password>\x27 to authenticate"],
      handlerCalled := false, handlerArgv := [], handlerArg := 0 }
  else
    let real_arg :=
      if tinysh_is_admin_command cmd then tinysh_get_real_arg cmd else cmd.arg
    let argv := cmd.name :: tokenizeLoop ' ' MAX_ARGS 1 (str.take (BUFFER_SIZE - 1))
    if cmd.hasFunction then
      { printed := [], handlerCalled := true, handlerArgv := argv,
        handlerArg := real_arg }
    else
      { printed := [], handlerCalled := false, handlerArgv := argv,
        handlerArg := 0 }

/-- Model of `auth_cmd_handler` (src/tinysh.c): with exactly two arguments
and a correct secret, raise the privilege level to Admin; otherwise leave it
unchanged.  Returns the new level and the output. -/
def auth_cmd_handler (authLevel : Nat) (argv : List (List Char)) :
    Nat × List String :=
  if argv.length ≠ 2 then (authLevel, ["Usage: auth <password>"])
  else if tinysh_verify_password (argv.getD 1 []) then
    (TINYSH_AUTH_ADMIN, ["Authentication successful. Admin privileges granted."])
  else (authLevel, ["Authentication failed. Incorrect password."])

/-- Model of `quit_fnt` (src/tinysh.c): clear the active flag (through the
argument pointer or the global fallback) and reset the privilege level to
None.  Returns (new level, new active flag, output). -/
def quit_fnt (_authLevel : Nat) (_active : Bool) : Nat × Bool × List String :=
  (TINYSH_AUTH_NONE, false, ["Exiting shell..."])

/-- C3: while the privilege level is below Admin, an admin-flagged command is
refused with a diagnostic plus an authentication hint and its handler is
never called; after `auth` receives the correct secret the level is Admin
and the same command's handler is invoked; after the quit action the level
is None again and the command is refused once more. -/
theorem admin_gate_round_trip (cmd : CmdDesc) (str : List Char)
    (hadmin : tinysh_is_admin_command cmd = true)
    (hfun : cmd.hasFunction = true) :
    (∀ lvl, lvl < TINYSH_AUTH_ADMIN →
      (exec_command lvl cmd str).handlerCalled = false ∧
      (exec_command lvl cmd str).printed =
        ["Error: Command requires admin privileges",
         "Use \x27auth <password>\x27 to authenticate"]) ∧
    (∀ lvl,
      (auth_cmd_handler lvl ["auth".toList, DEFAULT_ADMIN_PASSWORD]).1 =
        TINYSH_AUTH_ADMIN ∧
      (exec_command
        (auth_cmd_handler lvl ["auth".toList, DEFAULT_ADMIN_PASSWORD]).1
        cmd str).handlerCalled = true) ∧
    (∀ lvl active,
      (quit_fnt lvl active).1 = TINYSH_AUTH_NONE ∧
      (exec_command (quit_fnt lvl active).1 cmd str).handlerCalled = false) := by
  have hauth : ∀ lvl,
      (auth_cmd_handler lvl ["auth".toList, DEFAULT_ADMIN_PASSWORD]).1 =
        TINYSH_AUTH_ADMIN := by
    intro lvl
    rw [auth_cmd_handler]
    norm_num
    rw [if_pos]
    simp [tinysh_verify_password]
  refine ⟨?_, ?_, ?_⟩
  · intro lvl hlvl
    rw [exec_command, if_pos ⟨hadmin, hlvl⟩]
    exact ⟨rfl, rfl⟩
  · intro lvl
    refine ⟨hauth lvl, ?_⟩
    rw [hauth lvl]
    rw [exec_command, if_neg]
    · simp only [hfun, if_pos]
    · intro h
      exact absurd h.2 (by simp [TINYSH_AUTH_ADMIN])
  · intro lvl active
    refine ⟨rfl, ?_⟩
    rw [exec_command, if_pos ⟨hadmin, by simp [quit_fnt, TINYSH_AUTH_NONE, TINYSH_AUTH_ADMIN]⟩]

/-- Witness for C3 at a concrete admin-flagged command. -/
theorem admin_gate_round_trip_witness :
    (exec_command 0 ⟨"reboot".toList, true, TINYSH_CMD_ADMIN <<< 24⟩
      [] ).handlerCalled = false ∧
    (exec_command
      (auth_cmd_handler 0 ["auth".toList, DEFAULT_ADMIN_PASSWORD]).1
      ⟨"reboot".toList, true, TINYSH_CMD_ADMIN <<< 24⟩ []).handlerCalled = true :=
  ⟨((admin_gate_round_trip ⟨"reboot".toList, true, TINYSH_CMD_ADMIN <<< 24⟩ []
      (by decide) rfl).1 0 (by decide)).1,
   ((admin_gate_round_trip ⟨"reboot".toList, true, TINYSH_CMD_ADMIN <<< 24⟩ []
      (by decide) rfl).2.1 0).2⟩

/-! ## Line editor and history (`tinysh_char_in`, src/tinysh.c lines 35-46
and 610-743)

The line buffers are the raw C arrays: lists of exactly `BUFFER_SIZE + 1`
characters holding explicit NUL characters.  `HISTORY_DEPTH` (4 in this
build) is kept as a parameter `D` so that claim C5's depth-2 scenario is
expressible; the branches the preprocessor compiles only
`#if HISTORY_DEPTH > 1` exist in the model only when `1 < D`.
`ECHO_INPUT = 1`, so `start_of_line` resets the index after a submit.  The
dispatch of a submitted line is recorded in `dispatched`; `exec_command`
copies the line into `trash_buffer` before tokenizing, so dispatch does not
write into the line buffers, and handlers are taken not to feed characters
back into the editor.  The autocompletion engine extends the line by feeding
ordinary characters of command names back through the input entry point; the
model takes that emitted character sequence as the parameter `completeF`. -/

/-- Configuration constant `HISTORY_DEPTH` from `project-conf.h`. -/
def HISTORY_DEPTH : Nat := 4

/-- Configuration constant `TOPCHAR` from `project-conf.h`. -/
def TOPCHAR : Char := '/'

/-- Shorthand for control characters. -/
def chr (n : Nat) : Char := Char.ofNat n

/-- The line editor state: the history buffers (raw arrays), the ring index,
the line cursor, the dispatch-context length, the active flag, and the log of
lines handed to `exec_command_line`. -/
structure LineSt where
  buffers : List (List Char)
  curBuf : Nat
  curIndex : Nat
  curContext : Nat
  active : Bool
  dispatched : List (List Char)
  deriving DecidableEq, Repr

/-- Model of `tinysh_strlen` (src/tinysh.c): scan until a NUL or
`BUFFER_SIZE`, whichever comes first. -/
def tinysh_strlen (s : List Char) : Nat :=
  min (s.takeWhile (fun c => c ≠ NUL)).length BUFFER_SIZE

/-- The string content of a raw buffer (characters before the scan stop). -/
def lineStr (b : List Char) : List Char := b.take (tinysh_strlen b)

/-- The raw array `input_buffers[cur_buf_index]`. -/
def currentBuffer (st : LineSt) : List Char := st.buffers.getD st.curBuf []

/-- The live line as a string. -/
def currentLine (st : LineSt) : List Char := lineStr (currentBuffer st)

/-- The default branch of `tinysh_char_in`: append if room remains
(`line[cur_index++] = c; line[cur_index] = 0;`), else discard. -/
def appendChar (st : LineSt) (c : Char) : LineSt :=
  if st.curIndex < BUFFER_SIZE then
    let b := ((currentBuffer st).set st.curIndex c).set (st.curIndex + 1) NUL
    { st with buffers := st.buffers.set st.curBuf b, curIndex := st.curIndex + 1 }
  else st

/-- Model of `tinysh_char_in` (src/tinysh.c), one character step. -/
def tinysh_char_in (D : Nat) (completeF : List Char → List Char) (c : Char)
    (st : LineSt) : LineSt :=
  if c = '\n' ∨ c = chr 13 then
    -- validate command: trim leading blanks, dispatch when nonempty,
    -- advance the ring and clear the next slot, then start_of_line
    if (currentLine st).dropWhile (fun ch => ch = ' ') ≠ [] then
      { st with
          dispatched :=
            st.dispatched ++ [(currentLine st).dropWhile (fun ch => ch = ' ')],
          curBuf := (st.curBuf + 1) % D,
          buffers := st.buffers.set ((st.curBuf + 1) % D)
            ((st.buffers.getD ((st.curBuf + 1) % D) []).set 0 NUL),
          curIndex := 0 }
    else { st with curIndex := 0 }
  else if c = TOPCHAR then
    { st with curContext := 0 }
  else if c = chr 8 ∨ c = chr 127 then
    if st.curIndex > 0 then
      { st with curIndex := st.curIndex - 1,
                buffers := st.buffers.set st.curBuf
                  ((currentBuffer st).set (st.curIndex - 1) NUL) }
    else st
  else if 1 < D ∧ c = chr 16 then
    if (st.buffers.getD ((st.curBuf + D - 1) % D) []).getD 0 NUL ≠ NUL then
      { st with curBuf := (st.curBuf + D - 1) % D,
                curIndex := tinysh_strlen (st.buffers.getD ((st.curBuf + D - 1) % D) []) }
    else st
  else if 1 < D ∧ c = chr 14 then
    if (st.buffers.getD ((st.curBuf + 1) % D) []).getD 0 NUL ≠ NUL then
      { st with curBuf := (st.curBuf + 1) % D,
                curIndex := tinysh_strlen (st.buffers.getD ((st.curBuf + 1) % D) []) }
    else st
  else if c = '?' then
    { st with curIndex := tinysh_strlen (currentBuffer st) }
  else if c = chr 9 ∨ c = '!' then
    { (completeF (currentLine st)).foldl appendChar st with
        curIndex := tinysh_strlen
          (currentBuffer ((completeF (currentLine st)).foldl appendChar st)) }
  else if c = chr 4 then
    { st with active := false }
  else
    appendChar st c

/-- The initial editor state: all-zero buffers, ring index 0, cursor 0. -/
def initLineSt (D : Nat) : LineSt :=
  { buffers := List.replicate D (List.replicate (BUFFER_SIZE + 1) NUL),
    curBuf := 0, curIndex := 0, curContext := 0, active := true,
    dispatched := [] }

/-- Well-formedness of the editor state: the cursor is within
`[0, BUFFER_SIZE]`, the ring index is in range, and every history buffer is a
raw array of exactly `BUFFER_SIZE + 1` characters whose last cell is NUL
(hence every buffer holds a NUL-terminated string of at most
`BUFFER_SIZE` characters). -/
def LineWF (D : Nat) (st : LineSt) : Prop :=
  st.curIndex ≤ BUFFER_SIZE ∧
  st.curBuf < D ∧
  st.buffers.length = D ∧
  ∀ b ∈ st.buffers, b.length = BUFFER_SIZE + 1 ∧ b.getD BUFFER_SIZE NUL = NUL

/-- The characters that reach the final (append) branch of
`tinysh_char_in`. -/
def isOrdinaryChar (D : Nat) (c : Char) : Prop :=
  ¬(c = '\n' ∨ c = chr 13) ∧ c ≠ TOPCHAR ∧ ¬(c = chr 8 ∨ c = chr 127) ∧
  ¬(1 < D ∧ c = chr 16) ∧ ¬(1 < D ∧ c = chr 14) ∧ c ≠ '?' ∧
  ¬(c = chr 9 ∨ c = '!') ∧ c ≠ chr 4

/-- `tinysh_strlen` never exceeds `BUFFER_SIZE`. -/
theorem tinysh_strlen_le (s : List Char) : tinysh_strlen s ≤ BUFFER_SIZE :=
  Nat.min_le_right _ _

/-- `getD` after `set` at the same in-bounds position. -/
theorem getD_set_self_of_lt (l : List Char) (i : Nat) (x : Char)
    (h : i < l.length) : (l.set i x).getD i NUL = x := by
  simp [List.getD_eq_getElem?_getD, List.getElem?_set_self, h]

/-- `getD` after `set` at a different position. -/
theorem getD_set_of_ne (l : List Char) (i j : Nat) (x : Char) (h : i ≠ j) :
    (l.set i x).getD j NUL = l.getD j NUL := by
  simp [List.getD_eq_getElem?_getD, List.getElem?_set_ne h]

/-- An in-range `getD` is a member. -/
theorem getD_mem_of_lt (l : List (List Char)) (n : Nat) (h : n < l.length) :
    l.getD n [] ∈ l := by
  rw [List.getD_eq_getElem?_getD, List.getElem?_eq_getElem h]
  exact List.getElem_mem h

/-- Setting one cell of a well-formed raw buffer keeps it well formed,
provided the write stays in the array and the last cell keeps its NUL. -/
theorem cellSet_wf (b : List Char) (hl : b.length = BUFFER_SIZE + 1)
    (hn : b.getD BUFFER_SIZE NUL = NUL) (j : Nat) (x : Char)
    (hx : x = NUL ∨ j < BUFFER_SIZE) :
    (b.set j x).length = BUFFER_SIZE + 1 ∧
    (b.set j x).getD BUFFER_SIZE NUL = NUL := by
  refine ⟨by simp [hl], ?_⟩
  by_cases hj : j = BUFFER_SIZE
  · subst hj
    rcases hx with rfl | hlt
    · rw [getD_set_self_of_lt]
      omega
    · omega
  · rw [getD_set_of_ne _ _ _ _ hj, hn]

/-- Replacing the buffer at one ring slot with a well-formed raw buffer
keeps the buffer pool well formed. -/
theorem buffersSet_wf (bs : List (List Char)) (D : Nat) (hlen : bs.length = D)
    (hmem : ∀ b ∈ bs, b.length = BUFFER_SIZE + 1 ∧ b.getD BUFFER_SIZE NUL = NUL)
    (k : Nat) (nb : List Char) (hnb : nb.length = BUFFER_SIZE + 1)
    (hnb2 : nb.getD BUFFER_SIZE NUL = NUL) :
    (bs.set k nb).length = D ∧
    ∀ b ∈ bs.set k nb, b.length = BUFFER_SIZE + 1 ∧
      b.getD BUFFER_SIZE NUL = NUL := by
  refine ⟨by simp [hlen], ?_⟩
  intro b hb
  rcases List.mem_or_eq_of_mem_set hb with h | rfl
  · exact hmem b h
  · exact ⟨hnb, hnb2⟩

/-- `appendChar` preserves well-formedness and the ring index. -/
theorem appendChar_wf (D : Nat) (st : LineSt) (c : Char) (h : LineWF D st) :
    LineWF D (appendChar st c) ∧ (appendChar st c).curBuf = st.curBuf := by
  obtain ⟨hidx, hbuf, hlen, hmem⟩ := h
  rw [appendChar]
  by_cases hlt : st.curIndex < BUFFER_SIZE
  · rw [if_pos hlt]
    simp only [LineWF]
    have hb0 : currentBuffer st ∈ st.buffers := by
      apply getD_mem_of_lt; rw [hlen]; exact hbuf
    obtain ⟨hl0, hn0⟩ := hmem _ hb0
    have h1 := cellSet_wf (currentBuffer st) hl0 hn0 st.curIndex c (Or.inr hlt)
    have h2 := cellSet_wf _ h1.1 ?_ (st.curIndex + 1) NUL (Or.inl rfl)
    · have h3 := buffersSet_wf st.buffers D hlen hmem st.curBuf _ h2.1 h2.2
      exact ⟨⟨by omega, hbuf, h3.1, h3.2⟩, trivial⟩
    · -- the (curIndex) cell write does not disturb the final NUL when it is
      -- the final cell itself; otherwise the old final NUL survives
      by_cases hj : st.curIndex = BUFFER_SIZE
      · omega
      · rw [getD_set_of_ne _ _ _ _ hj, hn0]
  · rw [if_neg hlt]
    exact ⟨⟨hidx, hbuf, hlen, hmem⟩, rfl⟩

/-- Folding `appendChar` over any emitted character sequence preserves
well-formedness. -/
theorem foldl_appendChar_wf (D : Nat) (cs : List Char) :
    ∀ (st : LineSt), LineWF D st → LineWF D (cs.foldl appendChar st) := by
  induction cs with
  | nil => intro st h; exact h
  | cons c cs2 ih =>
    intro st h
    exact ih _ (appendChar_wf D st c h).1

/-- Every character step preserves the editor invariant. -/
theorem char_in_wf (D : Nat) (completeF : List Char → List Char)
    (st : LineSt) (c : Char) (hwf : LineWF D st) :
    LineWF D (tinysh_char_in D completeF c st) := by
  obtain ⟨hidx, hbuf, hlen, hmem⟩ := hwf
  have hD : 0 < D := Nat.lt_of_le_of_lt (Nat.zero_le _) hbuf
  rw [tinysh_char_in]
  by_cases h1 : c = '\n' ∨ c = chr 13
  · rw [if_pos h1]
    by_cases h2 : (currentLine st).dropWhile (fun ch => ch = ' ') ≠ []
    · rw [if_pos h2]
      have hnb : (st.curBuf + 1) % D < D := Nat.mod_lt _ hD
      have hb0 : st.buffers.getD ((st.curBuf + 1) % D) [] ∈ st.buffers := by
        apply getD_mem_of_lt; rw [hlen]; exact hnb
      obtain ⟨hl0, hn0⟩ := hmem _ hb0
      have hc1 := cellSet_wf _ hl0 hn0 0 NUL (Or.inl rfl)
      have hc2 := buffersSet_wf st.buffers D hlen hmem ((st.curBuf + 1) % D)
        _ hc1.1 hc1.2
      exact ⟨Nat.zero_le _, hnb, hc2.1, hc2.2⟩
    · rw [if_neg h2]
      exact ⟨Nat.zero_le _, hbuf, hlen, hmem⟩
  · rw [if_neg h1]
    by_cases h3 : c = TOPCHAR
    · rw [if_pos h3]
      exact ⟨hidx, hbuf, hlen, hmem⟩
    · rw [if_neg h3]
      by_cases h4 : c = chr 8 ∨ c = chr 127
      · rw [if_pos h4]
        by_cases h5 : st.curIndex > 0
        · rw [if_pos h5]
          have hb0 : currentBuffer st ∈ st.buffers := by
            apply getD_mem_of_lt; rw [hlen]; exact hbuf
          obtain ⟨hl0, hn0⟩ := hmem _ hb0
          have hc1 := cellSet_wf _ hl0 hn0 (st.curIndex - 1) NUL (Or.inl rfl)
          have hc2 := buffersSet_wf st.buffers D hlen hmem st.curBuf
            _ hc1.1 hc1.2
          exact ⟨le_trans (Nat.sub_le _ _) hidx, hbuf, hc2.1, hc2.2⟩
        · rw [if_neg h5]
          exact ⟨hidx, hbuf, hlen, hmem⟩
      · rw [if_neg h4]
        by_cases h6 : 1 < D ∧ c = chr 16
        · rw [if_pos h6]
          have hp : (st.curBuf + D - 1) % D < D := Nat.mod_lt _ hD
          by_cases h7 : (st.buffers.getD ((st.curBuf + D - 1) % D) []).getD 0 NUL ≠ NUL
          · rw [if_pos h7]
            exact ⟨tinysh_strlen_le _, hp, hlen, hmem⟩
          · rw [if_neg h7]
            exact ⟨hidx, hbuf, hlen, hmem⟩
        · rw [if_neg h6]
          by_cases h8 : 1 < D ∧ c = chr 14
          · rw [if_pos h8]
            have hp : (st.curBuf + 1) % D < D := Nat.mod_lt _ hD
            by_cases h9 : (st.buffers.getD ((st.curBuf + 1) % D) []).getD 0 NUL ≠ NUL
            · rw [if_pos h9]
              exact ⟨tinysh_strlen_le _, hp, hlen, hmem⟩
            · rw [if_neg h9]
              exact ⟨hidx, hbuf, hlen, hmem⟩
          · rw [if_neg h8]
            by_cases h10 : c = '?'
            · rw [if_pos h10]
              exact ⟨tinysh_strlen_le _, hbuf, hlen, hmem⟩
            · rw [if_neg h10]
              by_cases h11 : c = chr 9 ∨ c = '!'
              · rw [if_pos h11]
                have hst1 := foldl_appendChar_wf D (completeF (currentLine st))
                  st ⟨hidx, hbuf, hlen, hmem⟩
                obtain ⟨_, hbuf1, hlen1, hmem1⟩ := hst1
                exact ⟨tinysh_strlen_le _, hbuf1, hlen1, hmem1⟩
              · rw [if_neg h11]
                by_cases h12 : c = chr 4
                · rw [if_pos h12]
                  exact ⟨hidx, hbuf, hlen, hmem⟩
                · rw [if_neg h12]
                  exact (appendChar_wf D st c ⟨hidx, hbuf, hlen, hmem⟩).1

/-- An ordinary character arriving when the buffer is full is discarded:
the whole editor state is unchanged. -/
theorem char_in_full_discard (D : Nat) (completeF : List Char → List Char)
    (st : LineSt) (c : Char) (hord : isOrdinaryChar D c)
    (hfull : st.curIndex = BUFFER_SIZE) :
    tinysh_char_in D completeF c st = st := by
  obtain ⟨o1, o2, o3, o4, o5, o6, o7, o8⟩ := hord
  rw [tinysh_char_in, if_neg o1, if_neg o2, if_neg o3, if_neg o4, if_neg o5,
    if_neg o6, if_neg o7, if_neg o8]
  rw [appendChar, if_neg (by omega)]

/-- C9 (amended): after each character fed to the line editor the
cursor/length index stays in `[0, BUFFER_SIZE]`, every history buffer stays a
`BUFFER_SIZE + 1`-cell array whose last cell is NUL (so each buffer holds a
NUL-terminated string of at most `BUFFER_SIZE` characters), and an ordinary
character arriving when the buffer is full is discarded with the state left
unchanged.  The buffer is not in general NUL-terminated exactly *at* the
cursor index: submitting a whitespace-only line resets the cursor to 0 while
the spaces remain in the buffer. -/
theorem char_in_buffer_safety (D : Nat) (completeF : List Char → List Char)
    (st : LineSt) (c : Char) (hwf : LineWF D st) :
    LineWF D (tinysh_char_in D completeF c st) ∧
    (isOrdinaryChar D c → st.curIndex = BUFFER_SIZE →
      tinysh_char_in D completeF c st = st) :=
  ⟨char_in_wf D completeF st c hwf,
   fun hord hfull => char_in_full_discard D completeF st c hord hfull⟩

set_option maxRecDepth 8000 in
/-- Witness for C9: the invariant holds across a concrete step from the
initial state. -/
theorem char_in_buffer_safety_witness :
    LineWF HISTORY_DEPTH
      (tinysh_char_in HISTORY_DEPTH (fun _ => []) 'x'
        (initLineSt HISTORY_DEPTH)) :=
  (char_in_buffer_safety HISTORY_DEPTH (fun _ => [])
    (initLineSt HISTORY_DEPTH) 'x' (by unfold LineWF initLineSt; decide)).1

set_option maxRecDepth 8000 in
/-- C9 counterexample: feed a space and then a line terminator from the
initial state; the cursor resets to 0 but the buffer's first cell still
holds the space, so the buffer is not NUL-terminated at the cursor index. -/
theorem char_in_nul_at_cursor_counterexample :
    (tinysh_char_in HISTORY_DEPTH (fun _ => []) (chr 13)
        (tinysh_char_in HISTORY_DEPTH (fun _ => []) ' '
          (initLineSt HISTORY_DEPTH))).curIndex = 0 ∧
    (currentBuffer (tinysh_char_in HISTORY_DEPTH (fun _ => []) (chr 13)
        (tinysh_char_in HISTORY_DEPTH (fun _ => []) ' '
          (initLineSt HISTORY_DEPTH)))).getD 0 NUL = ' ' ∧
    (' ' : Char) ≠ NUL := by
  refine ⟨by decide, by decide, by decide⟩

/-- The key sequence of claim C5: submit `a`, `b`, `c`. -/
def histDemoKeys : List Char := ['a', chr 13, 'b', chr 13, 'c', chr 13]

/-- Run the editor at history depth 2 from the initial state. -/
def histRun (cs : List Char) : LineSt :=
  cs.foldl (fun st c => tinysh_char_in 2 (fun _ => []) c st) (initLineSt 2)

set_option maxRecDepth 8000 in
/-- C5 counterexample: with depth 2, after submitting `a`, `b`, `c`, the
second history-previous keypress leaves the live line at `c` — it does not
recall `b`, whose slot was cleared when `c` was submitted. -/
theorem history_depth2_counterexample :
    currentLine (histRun (histDemoKeys ++ [chr 16, chr 16])) = ['c'] ∧
    (['c'] : List Char) ≠ "b".toList := by
  exact ⟨by decide, by decide⟩

set_option maxRecDepth 8000 in
/-- C5 (amended): with a history ring of depth 2, after submitting `a`, `b`,
`c` in sequence, the first history-previous recalls `c` (the just-submitted
line); the second and third history-previous keypresses do not recall `b` or
`a` — the slot that held `b` was cleared to receive new input when `c` was
submitted — and leave the editor state entirely unchanged. -/
theorem history_depth2_recall :
    currentLine (histRun (histDemoKeys ++ [chr 16])) = ['c'] ∧
    histRun (histDemoKeys ++ [chr 16, chr 16]) =
      histRun (histDemoKeys ++ [chr 16]) ∧
    histRun (histDemoKeys ++ [chr 16, chr 16, chr 16]) =
      histRun (histDemoKeys ++ [chr 16]) := by
  refine ⟨by decide, by decide, by decide⟩

/-! ## Menu navigator (`src/tinysh_menu.c`, `src/tinysh_menu.h`)

Menus and command descriptors are held in index-based environments (indices
model the C pointers; the synthesized-submenu pool appends to the menu
environment).  The navigation stack is the pair of fixed `MENU_MAX_DEPTH`
arrays `menu_stack` / `index_stack` plus `menu_stack_idx`; `menu_stack_idx`
is an unclamped `Nat`, exactly as the C `unsigned char` is incremented
without a bound check in the command-tree-reference branch.  Output and the
hand-off of literal command text to the line editor are not modelled beyond
the flags they set. -/

/-- `MENU_MAX_DEPTH` from `project-conf.h`. -/
def MENU_MAX_DEPTH : Nat := 5

/-- `MENU_MAX_ITEMS` from `project-conf.h`. -/
def MENU_MAX_ITEMS : Nat := 10

/-- `MENU_DISPLAY_ITEMS` from `project-conf.h`. -/
def MENU_DISPLAY_ITEMS : Nat := 10

/-- `MAX_CMD_SUBMENUS` from `project-conf.h`. -/
def MAX_CMD_SUBMENUS : Nat := 30

/-- Menu item type flags from `tinysh_menu.h`. -/
def MENU_ITEM_SUBMENU : Nat := 0x01

/-- `MENU_ITEM_COMMAND` from `tinysh_menu.h`. -/
def MENU_ITEM_COMMAND : Nat := 0x02

/-- `MENU_ITEM_FUNCTION` from `tinysh_menu.h`. -/
def MENU_ITEM_FUNCTION : Nat := 0x04

/-- `MENU_ITEM_ADMIN` from `tinysh_menu.h`. -/
def MENU_ITEM_ADMIN : Nat := 0x08

/-- `MENU_ITEM_BACK` from `tinysh_menu.h`. -/
def MENU_ITEM_BACK : Nat := 0x10

/-- `MENU_ITEM_EXIT` from `tinysh_menu.h`. -/
def MENU_ITEM_EXIT : Nat := 0x20

/-- `MENU_ITEM_FUNCTION_ARG` from `tinysh_menu.h`. -/
def MENU_ITEM_FUNCTION_ARG : Nat := 0x40

/-- `MENU_ITEM_CMD_REF` from `tinysh_menu.h`. -/
def MENU_ITEM_CMD_REF : Nat := 0x80

/-- A menu item: title, type-flag bitmask, and the tagged payload
(submenu / command-tree reference / literal command text / functions). -/
structure MItem where
  title : String
  flags : Nat
  submenu : Option Nat := none
  cmd : Option Nat := none
  command : Option String := none
  hasFunction : Bool := false
  hasFunctionArg : Bool := false
  deriving DecidableEq, Repr

/-- A menu: title, items, valid item count, parent index. -/
structure MenuDef where
  title : String
  items : List MItem
  item_count : Nat
  parent_index : Nat
  deriving DecidableEq, Repr

/-- A command descriptor as the menu system sees it: name, child chain
(command indices), handler presence, usage text, admin flag. -/
structure CmdDef where
  name : String
  children : List Nat
  hasFunction : Bool := false
  usage : Option String := none
  admin : Bool := false
  deriving DecidableEq, Repr

/-- Defaults standing for a null pointer dereference target. -/
def emptyMenu : MenuDef := ⟨"", [], 0, 0⟩

/-- Default menu item. -/
def emptyItem : MItem := ⟨"", 0, none, none, none, false, false⟩

/-- Default command. -/
def emptyCmd : CmdDef := ⟨"", [], false, none, false⟩

/-- The whole menu-navigator state (`menu_state` plus the mode flags and the
function-local static escape-sequence state of `tinysh_menu_process_char`).
`calledFunctions` logs handler invocations for observability. -/
structure MenuSt where
  menus : List MenuDef
  cmds : List CmdDef
  currentMenu : Nat
  currentIndex : Nat
  scrollOffset : Nat
  menuStackIdx : Nat
  menuStack : List Nat
  indexStack : List Nat
  submenuCount : Nat
  inMenuMode : Bool
  waitingForKeypress : Bool
  collectingArguments : Bool
  inEscapeSeq : Bool
  escapeCharCount : Nat
  authLevel : Nat
  argBuffer : List Char
  calledFunctions : List String
  deriving DecidableEq, Repr

/-- Model of `tinysh_menu_display` as far as state goes: clamp the scroll
window minimally so the selection is visible (the rendering itself only
writes output). -/
def tinysh_menu_display (st : MenuSt) : MenuSt :=
  if ¬ st.inMenuMode then st
  else
    if st.currentIndex ≥ st.scrollOffset +
        min (st.menus.getD st.currentMenu emptyMenu).item_count MENU_DISPLAY_ITEMS then
      { st with scrollOffset :=
          (st.currentIndex -
            min (st.menus.getD st.currentMenu emptyMenu).item_count
              MENU_DISPLAY_ITEMS) + 1 }
    else if st.currentIndex < st.scrollOffset then
      { st with scrollOffset := st.currentIndex }
    else st

/-- Model of `tinysh_menu_go_back` (src/tinysh_menu.c): at the root return 0
and change nothing; otherwise pop one level, restore the menu and previously
selected index recorded at that level, reset the scroll, redisplay. -/
def tinysh_menu_go_back (st : MenuSt) : Bool × MenuSt :=
  if st.menuStackIdx = 0 then (false, st)
  else
    (true, tinysh_menu_display
      { st with menuStackIdx := st.menuStackIdx - 1,
                currentMenu := st.menuStack.getD (st.menuStackIdx - 1) 0,
                currentIndex := st.indexStack.getD (st.menuStackIdx - 1) 0,
                scrollOffset := 0 })

/-- Model of `tinysh_menu_exit` (src/tinysh_menu.c): leave menu mode (the C
function also resets the shell context and redraws the shell prompt). -/
def tinysh_menu_exit (st : MenuSt) : MenuSt :=
  if ¬ st.inMenuMode then st
  else { st with inMenuMode := false }

/-- Model of `execute_menu_item` (src/tinysh_menu.c).  Note: the
command-tree-reference branch that synthesizes a submenu checks only the
pool (`submenu_count < MAX_CMD_SUBMENUS`) before pushing, while the plain
submenu branch also checks `menu_stack_idx < MENU_MAX_DEPTH - 1`. -/
def execute_menu_item (st : MenuSt) (item : MItem) : MenuSt :=
  if item.flags &&& MENU_ITEM_BACK ≠ 0 then (tinysh_menu_go_back st).2
  else if item.flags &&& MENU_ITEM_EXIT ≠ 0 then tinysh_menu_exit st
  else if item.flags &&& MENU_ITEM_CMD_REF ≠ 0 then
    match item.cmd with
    | none => st
    | some ci =>
      if item.flags &&& MENU_ITEM_SUBMENU ≠ 0 then
        if st.submenuCount < MAX_CMD_SUBMENUS then
          tinysh_menu_display
            { st with
                menus := st.menus ++
                  [{ title := (st.cmds.getD ci emptyCmd).name ++ " Commands",
                     items :=
                       (((st.cmds.getD ci emptyCmd).children.take
                           (MENU_MAX_ITEMS - 1)).map (fun chi =>
                         { title := (st.cmds.getD chi emptyCmd).name,
                           flags := MENU_ITEM_CMD_REF |||
                             (if (st.cmds.getD chi emptyCmd).admin then
                               MENU_ITEM_ADMIN else 0),
                           cmd := some chi })) ++
                       [{ title := "Back", flags := MENU_ITEM_BACK }],
                     item_count :=
                       ((st.cmds.getD ci emptyCmd).children.take
                         (MENU_MAX_ITEMS - 1)).length + 1,
                     parent_index := 0 }],
                indexStack := st.indexStack.set st.menuStackIdx st.currentIndex,
                menuStackIdx := st.menuStackIdx + 1,
                menuStack := st.menuStack.set (st.menuStackIdx + 1) st.menus.length,
                currentMenu := st.menus.length,
                currentIndex := 0,
                scrollOffset := 0,
                submenuCount := st.submenuCount + 1 }
        else st
      else
        if (st.cmds.getD ci emptyCmd).hasFunction then
          if (st.cmds.getD ci emptyCmd).usage ≠ none ∧
              (st.cmds.getD ci emptyCmd).usage ≠ some "[no-arg]" then
            { st with collectingArguments := true, argBuffer := [] }
          else
            { st with
                calledFunctions :=
                  st.calledFunctions ++ [(st.cmds.getD ci emptyCmd).name],
                waitingForKeypress := true }
        else st
  else if item.flags &&& MENU_ITEM_SUBMENU ≠ 0 then
    match item.submenu with
    | none => st
    | some mid =>
      if st.menuStackIdx < MENU_MAX_DEPTH - 1 then
        tinysh_menu_display
          { st with
              indexStack := st.indexStack.set st.menuStackIdx st.currentIndex,
              menuStackIdx := st.menuStackIdx + 1,
              menuStack := st.menuStack.set (st.menuStackIdx + 1) mid,
              currentMenu := mid,
              currentIndex := 0,
              scrollOffset := 0 }
      else st
  else if item.flags &&& MENU_ITEM_FUNCTION ≠ 0 then
    if item.hasFunction then
      { st with calledFunctions := st.calledFunctions ++ [item.title],
                waitingForKeypress := true }
    else st
  else if item.flags &&& MENU_ITEM_FUNCTION_ARG ≠ 0 then
    if item.hasFunctionArg then
      { st with collectingArguments := true, argBuffer := [] }
    else st
  else if item.flags &&& MENU_ITEM_COMMAND ≠ 0 then
    match item.command with
    | none => st
    | some txt =>
      { st with calledFunctions := st.calledFunctions ++ [txt],
                waitingForKeypress := true }
  else st

/-- Model of `tinysh_menu_execute_selection` (src/tinysh_menu.c): bounds
check, then the admin gate, then item execution. -/
def tinysh_menu_execute_selection (st : MenuSt) : MenuSt :=
  if st.currentIndex ≥ (st.menus.getD st.currentMenu emptyMenu).item_count then st
  else
    if ((st.menus.getD st.currentMenu emptyMenu).items.getD st.currentIndex
          emptyItem).flags &&& MENU_ITEM_ADMIN ≠ 0 ∧
        st.authLevel < TINYSH_AUTH_ADMIN then
      { st with waitingForKeypress := true }
    else
      execute_menu_item st
        ((st.menus.getD st.currentMenu emptyMenu).items.getD st.currentIndex
          emptyItem)

/-- Model of `menu_select_item` (src/tinysh_menu.c). -/
def menu_select_item (st : MenuSt) (index : Nat) : MenuSt :=
  if index ≥ (st.menus.getD st.currentMenu emptyMenu).item_count then st
  else { st with currentIndex := index }

/-- Model of `navigate_menu` (src/tinysh_menu.c): move the selection with
wraparound, then redisplay. -/
def navigate_menu (st : MenuSt) (direction : Int) : MenuSt :=
  if (st.menus.getD st.currentMenu emptyMenu).item_count = 0 then st
  else
    tinysh_menu_display
      { st with currentIndex :=
          (if (st.currentIndex : Int) + direction < 0 then
            (st.menus.getD st.currentMenu emptyMenu).item_count - 1
          else if (st.currentIndex : Int) + direction ≥
              ((st.menus.getD st.currentMenu emptyMenu).item_count : Int) then 0
          else ((st.currentIndex : Int) + direction).toNat) }

/-- Model of `handle_argument_input` (src/tinysh_menu.c). -/
def handle_argument_input (st : MenuSt) (c : Char) : MenuSt :=
  if ¬ st.collectingArguments then st
  else if c = chr 13 ∨ c = '\n' then
    { st with collectingArguments := false, waitingForKeypress := true,
              calledFunctions := st.calledFunctions ++ ["(pending-arg-function)"] }
  else if c = chr 8 ∨ c = chr 127 then
    { st with argBuffer := st.argBuffer.dropLast }
  else if st.argBuffer.length < BUFFER_SIZE - 1 ∧ chr 32 ≤ c ∧ c ≤ chr 126 then
    { st with argBuffer := st.argBuffer ++ [c] }
  else st

/-- The regular-navigation-keys switch at the bottom of
`tinysh_menu_process_char`.  Returns (consumed?, state). -/
def menu_process_core (st : MenuSt) (c : Char) : Nat × MenuSt :=
  if c = chr 27 then (1, { st with inEscapeSeq := true, escapeCharCount := 0 })
  else if c = chr 13 then (1, tinysh_menu_execute_selection st)
  else if c = 'q' then
    if (tinysh_menu_go_back st).1 = false then
      (1, tinysh_menu_exit (tinysh_menu_go_back st).2)
    else (1, (tinysh_menu_go_back st).2)
  else if '0' ≤ c ∧ c ≤ '9' then
    if c.toNat - '0'.toNat <
        (st.menus.getD st.currentMenu emptyMenu).item_count then
      (1, tinysh_menu_display (menu_select_item st (c.toNat - '0'.toNat)))
    else (1, st)
  else (0, st)

/-- Model of `tinysh_menu_process_char` (src/tinysh_menu.c): mode checks,
argument collection, acknowledgment wait, the escape-sequence machine, then
the regular key switch.  (The C fallback for a third escape character is
unreachable: the two-character arm always resets the sequence state.) -/
def tinysh_menu_process_char (st : MenuSt) (c : Char) : Nat × MenuSt :=
  if ¬ st.inMenuMode then (0, st)
  else if st.collectingArguments then (1, handle_argument_input st c)
  else if st.waitingForKeypress then
    (1, tinysh_menu_display { st with waitingForKeypress := false })
  else if st.inEscapeSeq then
    if st.escapeCharCount + 1 = 1 ∧ c = '[' then
      (1, { st with escapeCharCount := st.escapeCharCount + 1 })
    else if st.escapeCharCount + 1 = 2 then
      if c = 'A' then
        (1, navigate_menu
          { st with inEscapeSeq := false, escapeCharCount := 0 } (-1))
      else if c = 'B' then
        (1, navigate_menu
          { st with inEscapeSeq := false, escapeCharCount := 0 } 1)
      else if c = 'C' then
        (1, tinysh_menu_execute_selection
          { st with inEscapeSeq := false, escapeCharCount := 0 })
      else if c = 'D' then
        (1, (tinysh_menu_go_back
          { st with inEscapeSeq := false, escapeCharCount := 0 }).2)
      else
        menu_process_core
          { st with inEscapeSeq := false, escapeCharCount := 0 } c
    else
      menu_process_core { st with escapeCharCount := st.escapeCharCount + 1 } c
  else
    menu_process_core st c

/-- Model of `tinysh_menu_init` (src/tinysh_menu.c). -/
def tinysh_menu_init (menus : List MenuDef) (cmds : List CmdDef)
    (root : Nat) : MenuSt :=
  { menus := menus, cmds := cmds, currentMenu := root, currentIndex := 0,
    scrollOffset := 0, menuStackIdx := 0,
    menuStack := (List.replicate MENU_MAX_DEPTH 0).set 0 root,
    indexStack := List.replicate MENU_MAX_DEPTH 0,
    submenuCount := 0, inMenuMode := false, waitingForKeypress := false,
    collectingArguments := false, inEscapeSeq := false, escapeCharCount := 0,
    authLevel := TINYSH_AUTH_NONE, argBuffer := [], calledFunctions := [] }

/-- Model of `tinysh_menu_enter` (src/tinysh_menu.c). -/
def tinysh_menu_enter (st : MenuSt) : MenuSt :=
  if st.inMenuMode then st
  else
    tinysh_menu_display
      { st with inMenuMode := true,
                currentMenu := st.menuStack.getD 0 0,
                currentIndex := st.indexStack.getD 0 0,
                scrollOffset := 0 }

/-- `tinysh_menu_display` only ever adjusts the scroll offset. -/
theorem display_preserves (st : MenuSt) :
    (tinysh_menu_display st).menuStackIdx = st.menuStackIdx ∧
    (tinysh_menu_display st).currentMenu = st.currentMenu ∧
    (tinysh_menu_display st).currentIndex = st.currentIndex ∧
    (tinysh_menu_display st).menuStack = st.menuStack ∧
    (tinysh_menu_display st).indexStack = st.indexStack ∧
    (tinysh_menu_display st).inMenuMode = st.inMenuMode ∧
    (tinysh_menu_display st).waitingForKeypress = st.waitingForKeypress ∧
    (tinysh_menu_display st).calledFunctions = st.calledFunctions := by
  rw [tinysh_menu_display]
  split_ifs <;> exact ⟨rfl, rfl, rfl, rfl, rfl, rfl, rfl, rfl⟩

/-- Commands for the deep-nesting scenario: `parent` has one child. -/
def c2cmds : List CmdDef :=
  [{ name := "parent", children := [1] }, { name := "child", children := [] }]

/-- A plain submenu-reference item. -/
def subItem (mid : Nat) : MItem :=
  { title := "sub", flags := MENU_ITEM_SUBMENU, submenu := some mid }

/-- A command-tree-reference item whose command has children. -/
def cmdRefItem (ci : Nat) : MItem :=
  { title := "cmds", flags := MENU_ITEM_CMD_REF ||| MENU_ITEM_SUBMENU,
    cmd := some ci }

/-- Build a menu with a consistent item count. -/
def mkMenu (t : String) (its : List MItem) : MenuDef :=
  { title := t, items := its, item_count := its.length, parent_index := 0 }

/-- Host menus nested so that four plain submenu pushes are possible,
with the deepest menu holding a command-tree reference with children. -/
def c2menus : List MenuDef :=
  [mkMenu "m0" [subItem 1], mkMenu "m1" [subItem 2], mkMenu "m2" [subItem 3],
   mkMenu "m3" [subItem 4], mkMenu "m4" [cmdRefItem 0]]

/-- The reachable state at stack index `MENU_MAX_DEPTH - 1`: enter the menu
and activate the submenu item four times. -/
def c2deepState : MenuSt :=
  tinysh_menu_execute_selection (tinysh_menu_execute_selection
    (tinysh_menu_execute_selection (tinysh_menu_execute_selection
      (tinysh_menu_enter (tinysh_menu_init c2menus c2cmds 0)))))

/-- C2: the navigation-stack index does NOT stay below `MENU_MAX_DEPTH`.
The command-tree-reference branch of `execute_menu_item` checks only the
submenu pool, not the stack depth: from the reachable state at index
`MENU_MAX_DEPTH - 1`, activating a command-tree reference with children
increments `menu_stack_idx` to `MENU_MAX_DEPTH` — in C the following write
`menu_stack[menu_stack_idx]` is past the end of the fixed-size array. -/
theorem menu_stack_depth_overflow :
    c2deepState.menuStackIdx = MENU_MAX_DEPTH - 1 ∧
    c2deepState.submenuCount < MAX_CMD_SUBMENUS ∧
    (tinysh_menu_execute_selection c2deepState).menuStackIdx =
      MENU_MAX_DEPTH ∧
    ¬ ((tinysh_menu_execute_selection c2deepState).menuStackIdx <
      MENU_MAX_DEPTH) := by
  refine ⟨by decide, by decide, by decide, by decide⟩

/-- A pure back item. -/
def backItem : MItem := { title := "Back", flags := MENU_ITEM_BACK }

/-- Root menu holding only a back item. -/
def c4menus : List MenuDef :=
  [mkMenu "root" [backItem], mkMenu "subm" [backItem]]

/-- Menus for the below-root case: the root pushes to a submenu that holds a
back item. -/
def c4menus2 : List MenuDef :=
  [mkMenu "root" [subItem 1], mkMenu "subm" [backItem]]

/-- The menu navigator at the root with a back item. -/
def c4rootState : MenuSt := tinysh_menu_enter (tinysh_menu_init c4menus [] 0)

/-- The menu navigator one level below the root. -/
def c4deepState : MenuSt :=
  tinysh_menu_execute_selection (tinysh_menu_enter (tinysh_menu_init c4menus2 [] 0))

/-- C4 counterexample: executing a back item at the root leaves the state
unchanged — in particular menu mode stays active, so no menu-mode exit is
signalled (`execute_menu_item` discards `tinysh_menu_go_back`'s result). -/
theorem menu_back_at_root_no_exit_counterexample :
    c4rootState.menuStackIdx = 0 ∧
    c4rootState.inMenuMode = true ∧
    execute_menu_item c4rootState backItem = c4rootState ∧
    (execute_menu_item c4rootState backItem).inMenuMode = true := by
  refine ⟨by decide, by decide, by decide, by decide⟩

/-- C4 (amended): executing a back item at the root leaves the entire state
unchanged — it does not signal menu-mode exit (that happens only for the
back key / unrecognized-escape fallback in `tinysh_menu_process_char`);
executing it below the root pops exactly one stack level and restores, as
the new current selection, the index previously recorded at that level. -/
theorem menu_back_item_behavior (st : MenuSt) (item : MItem)
    (hback : item.flags &&& MENU_ITEM_BACK ≠ 0) :
    (st.menuStackIdx = 0 → execute_menu_item st item = st) ∧
    (∀ k, st.menuStackIdx = k + 1 →
      (execute_menu_item st item).menuStackIdx = k ∧
      (execute_menu_item st item).currentMenu = st.menuStack.getD k 0 ∧
      (execute_menu_item st item).currentIndex = st.indexStack.getD k 0 ∧
      (execute_menu_item st item).menuStack = st.menuStack ∧
      (execute_menu_item st item).indexStack = st.indexStack ∧
      (execute_menu_item st item).inMenuMode = st.inMenuMode) := by
  constructor
  · intro h0
    rw [execute_menu_item, if_pos hback, tinysh_menu_go_back, if_pos h0]
  · intro k hk
    rw [execute_menu_item, if_pos hback, tinysh_menu_go_back,
      if_neg (by omega), hk]
    simp only [Nat.add_sub_cancel]
    exact ⟨(display_preserves _).1, (display_preserves _).2.1,
      (display_preserves _).2.2.1, (display_preserves _).2.2.2.1,
      (display_preserves _).2.2.2.2.1, (display_preserves _).2.2.2.2.2.1⟩

/-- Witness for C4 at concrete states on both sides of the root. -/
theorem menu_back_item_behavior_witness :
    execute_menu_item c4rootState backItem = c4rootState ∧
    (execute_menu_item c4deepState backItem).menuStackIdx = 0 ∧
    (execute_menu_item c4deepState backItem).currentIndex =
      c4deepState.indexStack.getD 0 0 :=
  ⟨(menu_back_item_behavior c4rootState backItem (by decide)).1 (by decide),
   ((menu_back_item_behavior c4deepState backItem (by decide)).2 0
      (by decide)).1,
   ((menu_back_item_behavior c4deepState backItem (by decide)).2 0
      (by decide)).2.2.1⟩

/-- An exit item. -/
def exitItem : MItem := { title := "leave", flags := MENU_ITEM_EXIT }

/-- Root menu for the numeric-shortcut scenario: item 1 is an exit item. -/
def c6menus : List MenuDef :=
  [mkMenu "root" [{ title := "noop", flags := 0 }, exitItem]]

/-- Browsing state for the numeric-shortcut scenario. -/
def c6state : MenuSt := tinysh_menu_enter (tinysh_menu_init c6menus [] 0)

/-- C6 counterexample: pressing the digit of an exit item only moves the
selection — menu mode stays active and nothing executes; pressing Enter
afterwards executes the now-selected exit item and leaves menu mode.  The
numeric key is therefore not selects-then-executes. -/
theorem menu_numeric_no_execute_counterexample :
    (tinysh_menu_process_char c6state '1').2.inMenuMode = true ∧
    (tinysh_menu_process_char c6state '1').2.currentIndex = 1 ∧
    (tinysh_menu_process_char
      (tinysh_menu_process_char c6state '1').2 (chr 13)).2.inMenuMode =
      false := by
  refine ⟨by decide, by decide, by decide⟩

/-- C6 (amended): in the Browsing state a numeric keypress whose digit is a
valid item index selects that item and redraws the menu, but does not execute
it; execution happens only via Enter / arrow-right on the selection. -/
theorem menu_numeric_selects_without_execute (st : MenuSt) (c : Char)
    (hmode : st.inMenuMode = true) (hcol : st.collectingArguments = false)
    (hwait : st.waitingForKeypress = false) (hesc : st.inEscapeSeq = false)
    (hdig : '0' ≤ c ∧ c ≤ '9')
    (hidx : c.toNat - '0'.toNat <
      (st.menus.getD st.currentMenu emptyMenu).item_count) :
    tinysh_menu_process_char st c =
      (1, tinysh_menu_display
        { st with currentIndex := c.toNat - '0'.toNat }) ∧
    (tinysh_menu_process_char st c).2.inMenuMode = true ∧
    (tinysh_menu_process_char st c).2.waitingForKeypress = false ∧
    (tinysh_menu_process_char st c).2.menuStackIdx = st.menuStackIdx ∧
    (tinysh_menu_process_char st c).2.calledFunctions = st.calledFunctions := by
  have h27 : c ≠ chr 27 := by
    intro h; subst h; exact absurd hdig.1 (by decide)
  have h13 : c ≠ chr 13 := by
    intro h; subst h; exact absurd hdig.1 (by decide)
  have hq : c ≠ 'q' := by
    intro h; subst h; exact absurd hdig.2 (by decide)
  have hmain : tinysh_menu_process_char st c =
      (1, tinysh_menu_display
        { st with currentIndex := c.toNat - '0'.toNat }) := by
    rw [tinysh_menu_process_char, if_neg (by simp [hmode]),
      if_neg (by simp [hcol]), if_neg (by simp [hwait]),
      if_neg (by simp [hesc]),
      menu_process_core, if_neg h27, if_neg h13, if_neg hq, if_pos hdig,
      if_pos hidx, menu_select_item, if_neg (by omega)]
  refine ⟨hmain, ?_, ?_, ?_, ?_⟩ <;> rw [hmain] <;>
    obtain ⟨d1, _, _, _, _, d6, d7, d8⟩ := display_preserves
      { st with currentIndex := c.toNat - '0'.toNat }
  · rw [d6]; exact hmode
  · rw [d7]; exact hwait
  · exact d1
  · exact d8

/-- Witness for the amended C6 theorem at a concrete browsing state. -/
theorem menu_numeric_selects_without_execute_witness :
    tinysh_menu_process_char c6state '1' =
      (1, tinysh_menu_display { c6state with currentIndex := 1 }) :=
  (menu_numeric_selects_without_execute c6state '1' (by decide) (by decide)
    (by decide) (by decide) (by decide) (by decide)).1
